import Mathlib

/-
  Verification development for the Stage world-model-block spatial engine
  (src/libstage/model.cc).  Doubles are embedded as real numbers, GLib
  lists as Lean lists, and the per-model callback dispatch as an event
  log.  Functions whose bodies live in model.cc are translated from that
  source; the handful of primitives that model.cc merely calls
  (pose composition, angle normalization, the world raytracer, the world
  update/velocity list bookkeeping) are modelled from the specification
  and marked as such in their doc comments.
-/

/-- Pose record (x, y, z, heading), mirroring stg_pose_t. -/
structure Pose where
  x : ℝ
  y : ℝ
  z : ℝ
  a : ℝ

/-- Planar point, mirroring stg_point_t. -/
structure Point where
  x : ℝ
  y : ℝ

/-- Velocity record (x, y, z, angular), mirroring stg_velocity_t. -/
structure Velocity where
  x : ℝ
  y : ℝ
  z : ℝ
  a : ℝ

/-- Modelled from the spec: `pose_sum(a, b)` composes b expressed in a's
frame; the body of stg_pose_sum/pose_sum lives in stage.cc, which is not
under src/.  Spec 4.1 gives the result as
(a.x + b.x cos a.a − b.y sin a.a, a.y + b.x sin a.a + b.y cos a.a,
 a.z + b.z, a.a + b.a). -/
noncomputable def pose_sum (a b : Pose) : Pose :=
  ⟨a.x + b.x * Real.cos a.a - b.y * Real.sin a.a,
   a.y + b.x * Real.sin a.a + b.y * Real.cos a.a,
   a.z + b.z,
   a.a + b.a⟩

/-- Action of a pose, seen as a rigid transform, on a planar point; this is
the x/y part of pose_sum and is how Block::Map carries vertices to world
coordinates. -/
noncomputable def apply_pose (f : Pose) (v : Point) : Point :=
  ⟨f.x + v.x * Real.cos f.a - v.y * Real.sin f.a,
   f.y + v.x * Real.sin f.a + v.y * Real.cos f.a⟩

/-- Modelled from the spec: `normalize(a)` returns a mod 2π shifted into
(−π, π]; the body lives outside src/.  (Named normalizeAngle because Lean
already uses the source's name.) -/
noncomputable def normalizeAngle (a : ℝ) : ℝ :=
  a - 2 * Real.pi * (⌈a / (2 * Real.pi) - 1 / 2⌉ : ℤ)

/-- StgModel::GlobalToLocal from model.cc lines 422-444, with the model's
global pose abstracted as the frame `org`: rotates/translates x and y into
the frame, subtracts the frame heading, and leaves z untouched. -/
noncomputable def GlobalToLocal (org p : Pose) : Pose :=
  ⟨(p.x - org.x) * Real.cos org.a + (p.y - org.y) * Real.sin org.a,
   -(p.x - org.x) * Real.sin org.a + (p.y - org.y) * Real.cos org.a,
   p.z,
   p.a - org.a⟩

/-- StgModel::LocalToGlobal from model.cc lines 573-576:
pose_sum( pose_sum( GetGlobalPose(), geom.pose ), pose ), with the global
pose and geometry offset abstracted as arguments. -/
noncomputable def LocalToGlobalP (gpose geomPose p : Pose) : Pose :=
  pose_sum (pose_sum gpose geomPose) p

/-- The all-zero pose. -/
def zeroPose : Pose := ⟨0, 0, 0, 0⟩


/-- Polygon edges (pt[i], pt[(i+1) mod n]) in index order, as walked by the
loop in StgModel::TestCollision (model.cc lines 1575-1579). -/
def edgesAux (first cur : Point) : List Point → List (Point × Point)
  | [] => [(cur, first)]
  | q :: qs => (cur, q) :: edgesAux first q qs

/-- Edge list of a polygon outline; empty polygons have no edges. -/
def edges : List Point → List (Point × Point)
  | [] => []
  | p :: ps => edgesAux p p ps

/-- A block owned by a model, in the model's local frame: polygon points
plus the z prism bounds (StgBlock's data). -/
structure CBlock where
  pts : List Point
  zmin : ℝ
  zmax : ℝ

/-- An entry of the world's spatial index: a block rasterized in the world
frame, remembering its owning model, its globally transformed polygon and
its global z band (what Block::Map records). -/
structure MappedBlock where
  model : ℕ
  pts : List Point
  zmin : ℝ
  zmax : ℝ

/-- Modelled from the spec: Block::Map (block.cc, not under src/)
transforms each polygon vertex into world coordinates via the owner's
local_to_global frame and records global_zmin/global_zmax for z filtering. -/
noncomputable def mapBlock (mid : ℕ) (frame : Pose) (b : CBlock) : MappedBlock :=
  ⟨mid, b.pts.map (apply_pose frame), frame.z + b.zmin, frame.z + b.zmax⟩

/-- Removing every index entry owned by a model: the net effect of
StgModel::UnMap (model.cc lines 633-639), which unmaps each of the model's
blocks. -/
def unmap_model (idx : List MappedBlock) (mid : ℕ) : List MappedBlock :=
  idx.filter (fun mb => mb.model ≠ mid)

/-- Point on a segment at parameter t ∈ [0,1]. -/
noncomputable def segPt (p q : Point) (t : ℝ) : Point :=
  ⟨p.x + t * (q.x - p.x), p.y + t * (q.y - p.y)⟩

/-- The ray segment from p to q meets the segment from r to s at ray
parameter t. -/
def SegMeet (p q r s : Point) (t : ℝ) : Prop :=
  0 ≤ t ∧ t ≤ 1 ∧ ∃ u, 0 ≤ u ∧ u ≤ 1 ∧ segPt p q t = segPt r s u

/-- The ray from p to q (at height z) hits the mapped block: the z filter
passes and the ray crosses some edge of the block's rasterized outline
(Block::Map records the polygon's edges in the index). -/
def RayHits (mb : MappedBlock) (z : ℝ) (p q : Point) : Prop :=
  (mb.zmin ≤ z ∧ z ≤ mb.zmax) ∧
    ∃ e ∈ edges mb.pts, ∃ t, SegMeet p q e.1 e.2 t

section
open Classical

/-- Distance (in ray parameter) of the earliest crossing of the block's
outline, used only to order hits along a ray. -/
noncomputable def hitT (mb : MappedBlock) (p q : Point) : ℝ :=
  sInf {t | ∃ e ∈ edges mb.pts, SegMeet p q e.1 e.2 t}

/-- Modelled from the spec: StgWorld::Raytrace (world.cc, not under src/)
walks the ray from its origin and returns in the sample the first
predicate-accepting block it crosses, after the z filter; blocks crossed
nearer the origin win, and the pixel-list order (here: index-list order)
resolves ties.  Idealized continuously: the candidates are the accepted
blocks whose outlines the ray segment crosses, ordered by `hitT`. -/
noncomputable def raytrace_first (pred : MappedBlock → Prop) (p q : Point) (z : ℝ) :
    List MappedBlock → Option MappedBlock
  | [] => none
  | mb :: rest =>
    have r := raytrace_first pred p q z rest
    if pred mb ∧ RayHits mb z p q then
      match r with
      | none => some mb
      | some mb0 => if hitT mb0 p q < hitT mb p q then some mb0 else some mb
    else r

end

/-- collision_match from model.cc lines 1516-1520: accept a block iff its
owning model is not the finder and that model's obstacle_return is set. -/
def collision_match (obsRet : ℕ → Bool) (finder : ℕ) (mb : MappedBlock) : Prop :=
  mb.model ≠ finder ∧ obsRet mb.model = true

/-- Four-quadrant arctangent, via the complex argument (C's atan2, used at
model.cc line 1585). -/
noncomputable def atan2 (y x : ℝ) : ℝ := Complex.arg ⟨x, y⟩

/-- Euclidean norm of (dx, dy) (C's hypot, used at model.cc line 1584). -/
noncomputable def hypot (dx dy : ℝ) : ℝ := Complex.abs ⟨dx, dy⟩

/-- Enumerated callback keys replacing the attribute-address keys of
CallCallbacks (spec 9, callback registries). -/
inductive CbKey where
  | poseK
  | velocityK
  | stallK
deriving DecidableEq

/-- Trail checkpoint: pose, color and sim_time (stg_trail_item_t, filled at
model.cc lines 1626-1629). -/
structure TrailItem where
  pose : Pose
  color : ℕ
  time : ℕ

/-- The mutable per-model state used by the kinematic update path.  The
model is taken top-level (no parent) and childless, as in the collision
scenarios of the spec: its global pose is then its own pose. -/
structure KModel where
  id : ℕ
  pose : Pose
  geomPose : Pose
  blocks : List CBlock
  velocity : Velocity
  stall : Bool
  color : ℕ
  disabled : Bool
  on_velocity_list : Bool
  trail : List TrailItem

/-- The world-side inputs of the kinematic update: obstacle_return of each
model by id, the update counter, sim_time and interval_sim (microseconds). -/
structure KWorld where
  obsRet : ℕ → Bool
  updates : ℕ
  sim_time : ℕ
  interval_sim : ℕ

/-- Mutable simulation state threaded through the model mutators: the
model, the spatial index, the world's velocity list and the event log of
fired callbacks. -/
structure SimState where
  m : KModel
  idx : List MappedBlock
  velocity_list : List ℕ
  events : List CbKey

/-- StgModel::SetStall (model.cc lines 1389-1393): store the flag and fire
the stall callback. -/
def SetStallK (s : SimState) (b : Bool) : SimState :=
  { s with m := { s.m with stall := b }, events := s.events ++ [CbKey.stallK] }

/-- The index entries a top-level childless model contributes when mapped:
each block carried to world coordinates by the model's local-to-global
frame gpose ⊕ geom.pose. -/
noncomputable def map_model (m : KModel) : List MappedBlock :=
  m.blocks.map (mapBlock m.id (pose_sum m.pose m.geomPose))

section
open Classical

/-- StgModel::SetPose (model.cc lines 1311-1333) for a childless top-level
model: if the pose differs, unmap, normalize the heading, store, remap;
the pose callback fires in both cases. -/
noncomputable def SetPoseK (s : SimState) (p : Pose) : SimState :=
  if s.m.pose = p then { s with events := s.events ++ [CbKey.poseK] }
  else
    let m' := { s.m with pose := { p with a := normalizeAngle p.a } }
    { s with m := m',
             idx := unmap_model s.idx s.m.id ++ map_model m',
             events := s.events ++ [CbKey.poseK] }

/-- velocity_is_nonzero from model.cc lines 1260-1263: some component of
the velocity is nonzero. -/
def velocity_is_nonzero (v : Velocity) : Prop :=
  v.x ≠ 0 ∨ v.y ≠ 0 ∨ v.z ≠ 0 ∨ v.a ≠ 0

/-- StgModel::SetVelocity (model.cc lines 1265-1282): store the velocity,
maintain the world's velocity list through the on_velocity_list flag, and
fire the velocity callback. -/
noncomputable def SetVelocityF (s : SimState) (v : Velocity) : SimState :=
  let m1 := { s.m with velocity := v }
  let s1 : SimState := { s with m := m1 }
  let s2 : SimState :=
    if ¬ m1.on_velocity_list = true ∧ velocity_is_nonzero v then
      { s1 with m := { m1 with on_velocity_list := true },
                velocity_list := m1.id :: s1.velocity_list }
    else s1
  let s3 : SimState :=
    if s2.m.on_velocity_list = true ∧ ¬ velocity_is_nonzero v then
      { s2 with m := { s2.m with on_velocity_list := false },
                velocity_list := s2.velocity_list.erase s2.m.id }
    else s2
  { s3 with events := s3.events ++ [CbKey.velocityK] }

/-- Trail maintenance from model.cc lines 1626-1634: drop the oldest entry
when the length exceeds 100, then append the checkpoint. -/
def trail_push (tr : List TrailItem) (c : TrailItem) : List TrailItem :=
  (if 100 < tr.length then tr.tail else tr) ++ [c]

/-- All block edges of the model, in the order the nested loops of
TestCollision walk them. -/
def TCEdges (m : KModel) : List (Point × Point) :=
  m.blocks.bind (fun b => edges b.pts)

/-- The local edge ray of TestCollision (model.cc lines 1580-1604): range
and bearing along the block edge, the edge pose shifted by the pose delta,
then carried to world coordinates by the member Raytrace via
LocalToGlobal. -/
noncomputable def edge_ray (m : KModel) (d : Pose) (e : Point × Point) : Pose × ℝ :=
  let dx := e.2.x - e.1.x
  let dy := e.2.y - e.1.y
  (LocalToGlobalP m.pose m.geomPose (pose_sum d ⟨e.1.x, e.1.y, 0, atan2 dy dx⟩),
   hypot dx dy)

/-- Start and end point of a ray given as a pose plus a range. -/
noncomputable def ray_endpoints (rp : Pose) (range : ℝ) : Point × Point :=
  (⟨rp.x, rp.y⟩,
   ⟨rp.x + range * Real.cos rp.a, rp.y + range * Real.sin rp.a⟩)

/-- StgModel::TestCollision (model.cc lines 1536-1614) for a top-level
childless model: no blocks means no hit; otherwise the model is unmapped
(so its own entries are absent from the index the rays see), every block
edge is raytraced with collision_match, and each hitting edge overwrites
hitmod with the model of its sample block; the mover is remapped before
returning (the index is restored, so only the result is returned here). -/
noncomputable def TestCollision (obsRet : ℕ → Bool) (idx : List MappedBlock)
    (m : KModel) (d : Pose) : Option ℕ :=
  if m.blocks = [] then none
  else
    (TCEdges m).foldl
      (fun hitmod e =>
        let er := edge_ray m d e
        let pq := ray_endpoints er.1 er.2
        match raytrace_first (collision_match obsRet m.id) pq.1 pq.2 er.1.z
            (unmap_model idx m.id) with
        | some mb => some mb.model
        | none => hitmod)
      none

/-- StgModel::UpdatePose (model.cc lines 1617-1672): if the model is
disabled do nothing; every 10th world update append a trail checkpoint;
compute the pose delta from the velocity and interval_sim (microseconds to
seconds, and a zero z component); stall without moving on a collision,
otherwise clear stall and commit pose ⊕ delta through SetPose. -/
noncomputable def UpdatePoseF (w : KWorld) (s : SimState) : SimState :=
  if s.m.disabled then s
  else
    let tr := if w.updates % 10 = 0 then
        trail_push s.m.trail ⟨s.m.pose, s.m.color, w.sim_time⟩
      else s.m.trail
    let s1 : SimState := { s with m := { s.m with trail := tr } }
    let iv : ℝ := (w.interval_sim : ℝ) / 1000000
    let d : Pose := ⟨s.m.velocity.x * iv, s.m.velocity.y * iv, 0,
                     s.m.velocity.a * iv⟩
    match TestCollision w.obsRet s1.idx s1.m d with
    | some _ => SetStallK s1 true
    | none => SetPoseK (SetStallK s1 false) (pose_sum s1.m.pose d)

/-- Modelled from the spec: StgWorld::Update (world.cc, not under src/)
increments sim_time by interval_sim, bumps the update counter and drives
UpdatePose for each velocity-listed model (here the single model). -/
noncomputable def TickK (ws : KWorld × SimState) : KWorld × SimState :=
  ({ ws.1 with sim_time := ws.1.sim_time + ws.1.interval_sim,
               updates := ws.1.updates + 1 },
   UpdatePoseF ws.1 ws.2)

/-- n consecutive world ticks. -/
noncomputable def iterTick : ℕ → KWorld × SimState → KWorld × SimState
  | 0, ws => ws
  | n + 1, ws => iterTick n (TickK ws)

/-- Number of trail appends over n ticks whose update counters start at
u0: one per tick whose counter is a multiple of 10. -/
def appendCount (u0 : ℕ) : ℕ → ℕ
  | 0 => 0
  | n + 1 => (if u0 % 10 = 0 then 1 else 0) + appendCount (u0 + 1) n

end

/-- Events of the subscription lifecycle: the initfunc call and the
startup/shutdown callback hooks. -/
inductive SubEvent where
  | initfuncE
  | startupE
  | shutdownE
deriving DecidableEq

/-- State touched by Subscribe/Unsubscribe: the model's subscription count
(a signed int in the source), whether it has an initfunc, its id, the
world's update list and total_subs, and the event log. -/
structure SubState where
  subs : ℤ
  hasInit : Bool
  mid : ℕ
  updateList : List ℕ
  total_subs : ℤ
  events : List SubEvent

/-- Modelled from the spec: StgWorld::StartUpdatingModel (world.cc, not
under src/) places the model on the world's update list. -/
def StartUpdatingModel (l : List ℕ) (id : ℕ) : List ℕ :=
  if id ∈ l then l else l ++ [id]

/-- Modelled from the spec: StgWorld::StopUpdatingModel (world.cc, not
under src/) removes the model from the world's update list. -/
def StopUpdatingModel (l : List ℕ) (id : ℕ) : List ℕ :=
  l.erase id

/-- StgModel::Startup (model.cc lines 704-715): call initfunc if present,
start updating the model, fire the startup hook. -/
def StartupS (s : SubState) : SubState :=
  { s with events := s.events ++ (if s.hasInit then [SubEvent.initfuncE] else [])
                       ++ [SubEvent.startupE],
           updateList := StartUpdatingModel s.updateList s.mid }

/-- StgModel::Shutdown (model.cc lines 717-724): stop updating the model,
fire the shutdown hook. -/
def ShutdownS (s : SubState) : SubState :=
  { s with updateList := StopUpdatingModel s.updateList s.mid,
           events := s.events ++ [SubEvent.shutdownE] }

/-- StgModel::Subscribe (model.cc lines 642-652): increment the counts and
call Startup exactly when the new count is 1. -/
def SubscribeS (s : SubState) : SubState :=
  let s1 := { s with subs := s.subs + 1, total_subs := s.total_subs + 1 }
  if s1.subs = 1 then StartupS s1 else s1

/-- StgModel::Unsubscribe (model.cc lines 654-664): decrement the counts
and call Shutdown whenever the new count is below 1. -/
def UnsubscribeS (s : SubState) : SubState :=
  let s1 := { s with subs := s.subs - 1, total_subs := s.total_subs - 1 }
  if s1.subs < 1 then ShutdownS s1 else s1

/-- StgModel::IsAntecedent (model.cc lines 453-463), over the model's
ancestor chain (nearest parent first): true when the test model is found,
and an error state (none) when the recursion runs off the root and calls
through the null Parent() pointer — there is no base case returning
false. -/
def IsAntecedentC (self : ℕ) (anc : List ℕ) (t : ℕ) : Option Bool :=
  if self = t then some true
  else
    match anc with
    | [] => none
    | p :: rest => IsAntecedentC p rest t
termination_by anc

/-- StgModel::GetGlobalPose (model.cc lines 534-567), over the model's
ancestor chain (nearest parent first, each ancestor giving its local pose
and its geom.size.z): with a parent, compose the parent's global pose with
the local pose and add the parent's size.z to z; with no parent, the local
pose itself. -/
noncomputable def GetGlobalPoseC : List (Pose × ℝ) → Pose → Pose
  | [], pose => pose
  | (ppose, psz) :: anc, pose =>
    let pg := GetGlobalPoseC anc ppose
    let g := pose_sum pg pose
    { g with z := g.z + psz }

/-- Per-node data of a model in the scene tree. -/
structure TModel where
  id : ℕ
  pose : Pose
  geomPose : Pose
  sizeZ : ℝ
  blocks : List CBlock
  gpose_dirty : Bool

mutual

/-- A model with its subtree of children. -/
inductive MTree where
  | mk (val : TModel) (children : MForest)

/-- An ordered list of child subtrees. -/
inductive MForest where
  | nil
  | cons (hd : MTree) (tl : MForest)

end

/-- Root payload of a subtree. -/
def MTree.val : MTree → TModel
  | .mk v _ => v

/-- Children of a subtree's root. -/
def MTree.children : MTree → MForest
  | .mk _ cs => cs

mutual

/-- Ids of the model and all its descendants. -/
def MTree.ids : MTree → List ℕ
  | .mk v cs => v.id :: MForest.idsF cs

/-- Ids of all models in a forest. -/
def MForest.idsF : MForest → List ℕ
  | .nil => []
  | .cons t ts => t.ids ++ ts.idsF

end

mutual

/-- StgModel::GPoseDirtyTree (model.cc lines 1292-1298): set gpose_dirty on
the model and, recursively, on every descendant. -/
def MTree.setDirtyAll : MTree → MTree
  | .mk v cs => .mk { v with gpose_dirty := true } cs.setDirtyAllF

/-- GPoseDirtyTree over a forest of children. -/
def MForest.setDirtyAllF : MForest → MForest
  | .nil => .nil
  | .cons t ts => .cons t.setDirtyAll ts.setDirtyAllF

end

mutual

/-- Every model of the subtree has its gpose_dirty flag set. -/
def MTree.AllDirty : MTree → Prop
  | .mk v cs => v.gpose_dirty = true ∧ cs.AllDirtyF

/-- Every model of the forest has its gpose_dirty flag set. -/
def MForest.AllDirtyF : MForest → Prop
  | .nil => True
  | .cons t ts => t.AllDirty ∧ ts.AllDirtyF

end

/-- Global pose of a tree node under the ambient parent frame P and parent
height psz: pose_sum(parent_global, pose) with z raised by the parent's
size.z, as recomputed by GetGlobalPose. -/
noncomputable def nodeGlobal (P : Pose) (psz : ℝ) (v : TModel) : Pose :=
  let g := pose_sum P v.pose
  { g with z := g.z + psz }

mutual

/-- StgModel::MapWithChildren (model.cc lines 595-603) as the index
entries it creates: each node's blocks mapped at that node's
local-to-global frame, children stacked on the node. -/
noncomputable def mapTree (P : Pose) (psz : ℝ) : MTree → List MappedBlock
  | .mk v cs =>
    v.blocks.map (mapBlock v.id (pose_sum (nodeGlobal P psz v) v.geomPose))
      ++ mapForest (nodeGlobal P psz v) v.sizeZ cs

/-- MapWithChildren over a forest of children under their parent's global
frame and height. -/
noncomputable def mapForest (P : Pose) (psz : ℝ) : MForest → List MappedBlock
  | .nil => []
  | .cons t ts => mapTree P psz t ++ mapForest P psz ts

end

section
open Classical

/-- StgModel::SetPose (model.cc lines 1311-1333) on a subtree hanging
under the ambient parent frame (P, psz): when the pose differs, unmap the
model and all descendants, normalize the heading, store the pose, mark the
whole subtree gpose-dirty and remap it; the pose callback fires even when
the pose is unchanged. -/
noncomputable def SetPoseT (P : Pose) (psz : ℝ) (idx : List MappedBlock)
    (t : MTree) (p : Pose) (ev : List CbKey) :
    MTree × List MappedBlock × List CbKey :=
  if t.val.pose = p then (t, idx, ev ++ [CbKey.poseK])
  else
    let t1 := MTree.setDirtyAll
      (.mk { t.val with pose := { p with a := normalizeAngle p.a } } t.children)
    (t1,
     idx.filter (fun mb => mb.model ∉ t.ids) ++ mapTree P psz t1,
     ev ++ [CbKey.poseK])

end

/-- Unit square outline centered at the origin: the default body created
by AddBlockRect(-0.5, -0.5, 1, 1) (model.cc lines 332-347) at size 1 x 1. -/
noncomputable def sqPts : List Point :=
  [⟨-(1 / 2), -(1 / 2)⟩, ⟨1 / 2, -(1 / 2)⟩, ⟨1 / 2, 1 / 2⟩, ⟨-(1 / 2), 1 / 2⟩]

/-- The 1 x 1 x 1 square block of the scenario models. -/
noncomputable def unitBlock : CBlock := ⟨sqPts, 0, 1⟩

/-- Model A of spec scenario S2: a unit square at the origin with
x velocity vx, enabled and on the velocity list. -/
noncomputable def modelA (vx : ℝ) : KModel :=
  ⟨0, zeroPose, zeroPose, [unitBlock], ⟨vx, 0, 0, 0⟩, false, 0, false, true, []⟩

/-- Model A's own square as it sits mapped in the spatial index. -/
noncomputable def mappedA : MappedBlock := ⟨0, sqPts, 0, 1⟩

/-- Obstacle B of scenario S2: a unit square at (2, 0), mapped. -/
noncomputable def mappedB : MappedBlock :=
  ⟨1, [⟨3 / 2, -(1 / 2)⟩, ⟨5 / 2, -(1 / 2)⟩, ⟨5 / 2, 1 / 2⟩, ⟨3 / 2, 1 / 2⟩], 0, 1⟩

/-- Scenario world: every model an obstacle, update counter 1,
interval_sim one second. -/
def worldAB : KWorld := ⟨fun _ => true, 1, 0, 1000000⟩

/-- Scenario state: model A plus the mapped squares of A and B. -/
noncomputable def stateA (vx : ℝ) : SimState :=
  ⟨modelA vx, [mappedA, mappedB], [0], []⟩

/-- First obstacle of the two-hit TestCollision scenario: a thin mapped
block of model 1 crossing only the bottom edge of the mover's square. -/
noncomputable def m1blk : MappedBlock :=
  ⟨1, [⟨-(1 / 10), -1⟩, ⟨1 / 10, -1⟩, ⟨1 / 10, 0⟩, ⟨-(1 / 10), 0⟩], 0, 1⟩

/-- Second obstacle of the two-hit TestCollision scenario: a thin mapped
block of model 2 crossing only the top edge of the mover's square. -/
noncomputable def m2blk : MappedBlock :=
  ⟨2, [⟨-(1 / 10), 1 / 5⟩, ⟨1 / 10, 1 / 5⟩, ⟨1 / 10, 1⟩, ⟨-(1 / 10), 1⟩], 0, 1⟩

theorem pose_sum_zero_left (p : Pose) : pose_sum zeroPose p = p := by
  simp [pose_sum, zeroPose]

theorem pose_sum_zero_right (p : Pose) : pose_sum p zeroPose = p := by
  simp [pose_sum, zeroPose]

theorem pose_sum_assoc (a b c : Pose) :
    pose_sum (pose_sum a b) c = pose_sum a (pose_sum b c) := by
  simp only [pose_sum, Real.cos_add, Real.sin_add, Pose.mk.injEq]
  refine ⟨by ring, by ring, by ring, by ring⟩

theorem apply_pose_zero (v : Point) : apply_pose zeroPose v = v := by
  simp [apply_pose, zeroPose]

/-- A frame with zero heading acts as a translation. -/
theorem apply_pose_translation (f : Pose) (h : f.a = 0) (v : Point) :
    apply_pose f v = ⟨f.x + v.x, f.y + v.y⟩ := by
  simp [apply_pose, h]

theorem normalizeAngle_mem_Ioc (a : ℝ) :
    normalizeAngle a ∈ Set.Ioc (-Real.pi) Real.pi := by
  have hpi : (0 : ℝ) < 2 * Real.pi := by positivity
  have h1 : a / (2 * Real.pi) - 1 / 2 ≤ ((⌈a / (2 * Real.pi) - 1 / 2⌉ : ℤ) : ℝ) :=
    Int.le_ceil _
  have h2 : ((⌈a / (2 * Real.pi) - 1 / 2⌉ : ℤ) : ℝ) < a / (2 * Real.pi) - 1 / 2 + 1 :=
    Int.ceil_lt_add_one _
  have e1 : 2 * Real.pi * (a / (2 * Real.pi) - 1 / 2 + 1) = a + Real.pi := by
    field_simp
    ring
  have e2 : 2 * Real.pi * (a / (2 * Real.pi) - 1 / 2) = a - Real.pi := by
    field_simp
    ring
  have k1 := mul_le_mul_of_nonneg_left h1 (le_of_lt hpi)
  have k2 := mul_lt_mul_of_pos_left h2 hpi
  rw [e2] at k1
  rw [e1] at k2
  unfold normalizeAngle
  constructor
  · linarith
  · linarith

/-- Normalizing a value already in (−π, π] is the identity. -/
theorem normalizeAngle_eq_self {a : ℝ} (h : a ∈ Set.Ioc (-Real.pi) Real.pi) :
    normalizeAngle a = a := by
  have hpi : (0 : ℝ) < 2 * Real.pi := by positivity
  obtain ⟨hlo, hhi⟩ := h
  have hle : (⌈a / (2 * Real.pi) - 1 / 2⌉ : ℤ) ≤ 0 := by
    apply Int.ceil_le.mpr
    have : a / (2 * Real.pi) ≤ 1 / 2 := by
      rw [div_le_iff hpi]
      linarith
    push_cast
    linarith
  have hgt : (-1 : ℤ) < ⌈a / (2 * Real.pi) - 1 / 2⌉ := by
    apply Int.lt_ceil.mpr
    have : (-1 : ℝ) / 2 < a / (2 * Real.pi) := by
      rw [lt_div_iff hpi]
      linarith
    push_cast
    linarith
  have hc : (⌈a / (2 * Real.pi) - 1 / 2⌉ : ℤ) = 0 := by omega
  unfold normalizeAngle
  rw [hc]
  push_cast
  ring

theorem normalizeAngle_zero : normalizeAngle 0 = 0 :=
  normalizeAngle_eq_self ⟨neg_lt_zero.mpr Real.pi_pos, Real.pi_pos.le⟩

theorem hypot_cos_atan2 (phi dx dy : ℝ) :
    hypot dx dy * Real.cos (phi + atan2 dy dx) =
      dx * Real.cos phi - dy * Real.sin phi := by
  rcases eq_or_ne (⟨dx, dy⟩ : ℂ) 0 with hz | hz
  · have hx : dx = 0 := congrArg Complex.re hz
    have hy : dy = 0 := congrArg Complex.im hz
    rw [hx, hy, hypot]
    rw [show (⟨(0 : ℝ), (0 : ℝ)⟩ : ℂ) = 0 from Complex.ext rfl rfl, map_zero]
    ring
  · have habs : Complex.abs ⟨dx, dy⟩ ≠ 0 := Complex.abs.ne_zero hz
    rw [Real.cos_add, hypot, atan2]
    rw [Complex.cos_arg hz, Complex.sin_arg]
    have hre : (⟨dx, dy⟩ : ℂ).re = dx := rfl
    have him : (⟨dx, dy⟩ : ℂ).im = dy := rfl
    rw [hre, him]
    field_simp
    ring

theorem hypot_sin_atan2 (phi dx dy : ℝ) :
    hypot dx dy * Real.sin (phi + atan2 dy dx) =
      dx * Real.sin phi + dy * Real.cos phi := by
  rcases eq_or_ne (⟨dx, dy⟩ : ℂ) 0 with hz | hz
  · have hx : dx = 0 := congrArg Complex.re hz
    have hy : dy = 0 := congrArg Complex.im hz
    rw [hx, hy, hypot]
    rw [show (⟨(0 : ℝ), (0 : ℝ)⟩ : ℂ) = 0 from Complex.ext rfl rfl, map_zero]
    ring
  · have habs : Complex.abs ⟨dx, dy⟩ ≠ 0 := Complex.abs.ne_zero hz
    rw [Real.sin_add, hypot, atan2]
    rw [Complex.cos_arg hz, Complex.sin_arg]
    have hre : (⟨dx, dy⟩ : ℂ).re = dx := rfl
    have him : (⟨dx, dy⟩ : ℂ).im = dy := rfl
    rw [hre, him]
    field_simp
    ring

mutual

theorem MTree.setDirtyAll_allDirty : ∀ t : MTree, t.setDirtyAll.AllDirty
  | .mk _ cs => ⟨rfl, MForest.setDirtyAllF_allDirtyF cs⟩

theorem MForest.setDirtyAllF_allDirtyF : ∀ f : MForest, f.setDirtyAllF.AllDirtyF
  | .nil => trivial
  | .cons t ts => ⟨t.setDirtyAll_allDirty, ts.setDirtyAllF_allDirtyF⟩

end

mutual

theorem MTree.setDirtyAll_ids : ∀ t : MTree, t.setDirtyAll.ids = t.ids
  | .mk _ cs => by
    rw [MTree.setDirtyAll, MTree.ids, MTree.ids, MForest.setDirtyAllF_idsF cs]

theorem MForest.setDirtyAllF_idsF : ∀ f : MForest, f.setDirtyAllF.idsF = f.idsF
  | .nil => rfl
  | .cons t ts => by
    rw [MForest.setDirtyAllF, MForest.idsF, MForest.idsF,
      MTree.setDirtyAll_ids t, MForest.setDirtyAllF_idsF ts]

end

mutual

theorem mapTree_models : ∀ (P : Pose) (psz : ℝ) (t : MTree),
    ∀ mb ∈ mapTree P psz t, mb.model ∈ t.ids
  | P, psz, .mk v cs => by
    intro mb hmb
    rw [mapTree] at hmb
    rcases List.mem_append.mp hmb with h | h
    · rcases List.mem_map.mp h with ⟨b, _, rfl⟩
      simp [mapBlock, MTree.ids]
    · rw [MTree.ids]
      exact List.mem_cons_of_mem _
        (mapForest_models (nodeGlobal P psz v) v.sizeZ cs mb h)

theorem mapForest_models : ∀ (P : Pose) (psz : ℝ) (f : MForest),
    ∀ mb ∈ mapForest P psz f, mb.model ∈ f.idsF
  | _, _, .nil => by intro mb hmb; cases hmb
  | P, psz, .cons t ts => by
    intro mb hmb
    rw [mapForest] at hmb
    rw [MForest.idsF]
    rcases List.mem_append.mp hmb with h | h
    · exact List.mem_append.mpr (Or.inl (mapTree_models P psz t mb h))
    · exact List.mem_append.mpr (Or.inr (mapForest_models P psz ts mb h))

end

/-- C3: GetGlobalPose of a model with a parent composes the parent's
global pose with the local pose and additionally raises z by the parent's
size.z; with no parent it returns the local pose; concretely, a parent at
(1, 0, 0, π/2) with size.z = 0.2 and a child at local (1, 0, 0, 0) give
child global pose (1, 1, 0.2, π/2). -/
theorem c3_global_pose (anc : List (Pose × ℝ)) (ppose pose : Pose) (psz : ℝ) :
    GetGlobalPoseC ((ppose, psz) :: anc) pose =
      { pose_sum (GetGlobalPoseC anc ppose) pose with
        z := (pose_sum (GetGlobalPoseC anc ppose) pose).z + psz } ∧
    GetGlobalPoseC [] pose = pose ∧
    GetGlobalPoseC [(⟨1, 0, 0, Real.pi / 2⟩, 0.2)] ⟨1, 0, 0, 0⟩ =
      ⟨1, 1, 0.2, Real.pi / 2⟩ := by
  refine ⟨rfl, rfl, ?_⟩
  simp [GetGlobalPoseC, pose_sum, Real.cos_pi_div_two, Real.sin_pi_div_two]

/-- C8, amended: global_to_local(f, pose_sum(f, p)) recovers the x, y and
heading components of p exactly (the heading is returned as-is, with no
renormalization), while the z component comes back untouched from the
global pose, i.e. as f.z + p.z, because GlobalToLocal does not transform
z; likewise at the model level through LocalToGlobal, where the geometry
offset also remains folded in. -/
theorem c8_amended (f gp p : Pose) :
    GlobalToLocal f (pose_sum f p) = ⟨p.x, p.y, f.z + p.z, p.a⟩ ∧
    GlobalToLocal f (LocalToGlobalP f gp p) =
      ⟨(pose_sum gp p).x, (pose_sum gp p).y, f.z + (pose_sum gp p).z,
       (pose_sum gp p).a⟩ := by
  have key : ∀ q : Pose, GlobalToLocal f (pose_sum f q) = ⟨q.x, q.y, f.z + q.z, q.a⟩ := by
    intro q
    have h := Real.sin_sq_add_cos_sq f.a
    simp only [GlobalToLocal, pose_sum, Pose.mk.injEq]
    refine ⟨by linear_combination q.x * h, by linear_combination q.y * h,
      by ring, by ring⟩
  refine ⟨key p, ?_⟩
  rw [LocalToGlobalP, pose_sum_assoc]
  exact key (pose_sum gp p)

/-- C8, counterexample: with the frame (0,0,1,0) and p the zero pose, the
round trip returns (0,0,1,0), not p — the z component is not recovered. -/
theorem c8_counterexample :
    GlobalToLocal ⟨0, 0, 1, 0⟩ (pose_sum ⟨0, 0, 1, 0⟩ zeroPose) ≠ zeroPose := by
  simp [GlobalToLocal, pose_sum, zeroPose, Pose.mk.injEq]

/-- C9: the subscription count is not clamped at zero: Unsubscribe always
decrements, and the shutdown hook runs on every call that leaves the count
below 1 — in particular a call at count 0 drives it to −1 and fires
shutdown again. -/
theorem c9_unsub_below_one (s : SubState) (hle : s.subs ≤ 1) :
    (UnsubscribeS s).subs = s.subs - 1 ∧
    (UnsubscribeS s).events = s.events ++ [SubEvent.shutdownE] ∧
    (s.subs = 0 → (UnsubscribeS s).subs = -1) := by
  have hcond : s.subs - 1 < 1 := by omega
  refine ⟨?_, ?_, ?_⟩
  · simp [UnsubscribeS, ShutdownS, hcond]
  · simp [UnsubscribeS, ShutdownS, hcond]
  · intro h0
    simp [UnsubscribeS, ShutdownS, hcond, h0]

/-- C9 witness at a concrete state with count 0. -/
theorem c9_unsub_below_one_witness :
    (UnsubscribeS ⟨0, true, 5, [], 0, []⟩).subs = (0 : ℤ) - 1 ∧
    (UnsubscribeS ⟨0, true, 5, [], 0, []⟩).events =
      ([] : List SubEvent) ++ [SubEvent.shutdownE] ∧
    ((0 : ℤ) = 0 → (UnsubscribeS ⟨0, true, 5, [], 0, []⟩).subs = -1) :=
  c9_unsub_below_one ⟨0, true, 5, [], 0, []⟩ (by norm_num)

/-- C10: IsAntecedent has no base case for a parentless model: whenever
the test model is neither the model itself nor one of its ancestors, the
recursion runs off the root and dereferences the null Parent(), an error
state (none) in this total embedding rather than a false result. -/
theorem c10_antecedent_error (self : ℕ) (anc : List ℕ) (t : ℕ)
    (h : t ∉ self :: anc) : IsAntecedentC self anc t = none := by
  induction anc generalizing self with
  | nil =>
    have hne : ¬ self = t := by
      intro he
      exact h (by simp [he])
    simp [IsAntecedentC, hne]
  | cons p rest ih =>
    have hne : ¬ self = t := by
      intro he
      exact h (by simp [he])
    have ht : t ∉ p :: rest := by
      intro hm
      apply h
      simp only [List.mem_cons] at hm ⊢
      tauto
    rw [IsAntecedentC, if_neg hne]
    exact ih p ht

theorem SubscribeS_subs (s : SubState) : (SubscribeS s).subs = s.subs + 1 := by
  simp [SubscribeS, StartupS, apply_ite SubState.subs]

theorem SubscribeS_mid (s : SubState) : (SubscribeS s).mid = s.mid := by
  simp [SubscribeS, StartupS, apply_ite SubState.mid]

theorem UnsubscribeS_subs (s : SubState) : (UnsubscribeS s).subs = s.subs - 1 := by
  simp [UnsubscribeS, ShutdownS, apply_ite SubState.subs]

theorem UnsubscribeS_mid (s : SubState) : (UnsubscribeS s).mid = s.mid := by
  simp [UnsubscribeS, ShutdownS, apply_ite SubState.mid]

theorem SubscribeS_updList (s : SubState)
    (hinv : s.mid ∈ s.updateList ↔ 1 ≤ s.subs) (hnd : s.updateList.Nodup) :
    ((SubscribeS s).mid ∈ (SubscribeS s).updateList ↔ 1 ≤ (SubscribeS s).subs) ∧
    (SubscribeS s).updateList.Nodup := by
  rw [SubscribeS_mid, SubscribeS_subs]
  unfold SubscribeS StartupS StartUpdatingModel
  by_cases h1 : s.subs + 1 = 1
  · simp only [h1, if_true, if_pos rfl]
    by_cases hm : s.mid ∈ s.updateList
    · simp only [if_pos hm]
      exact ⟨⟨fun _ => by omega, fun _ => hm⟩, hnd⟩
    · simp only [if_neg hm]
      constructor
      · constructor
        · intro
          omega
        · intro
          simp
      · simp [List.nodup_append, hnd, hm]
  · simp only [if_neg h1]
    refine ⟨?_, hnd⟩
    constructor
    · intro hm
      have := hinv.mp hm
      omega
    · intro hle
      exact hinv.mpr (by omega)

theorem UnsubscribeS_updList (s : SubState)
    (hinv : s.mid ∈ s.updateList ↔ 1 ≤ s.subs) (hnd : s.updateList.Nodup) :
    ((UnsubscribeS s).mid ∈ (UnsubscribeS s).updateList ↔ 1 ≤ (UnsubscribeS s).subs) ∧
    (UnsubscribeS s).updateList.Nodup := by
  rw [UnsubscribeS_mid, UnsubscribeS_subs]
  unfold UnsubscribeS ShutdownS StopUpdatingModel
  by_cases h1 : s.subs - 1 < 1
  · simp only [if_pos h1]
    constructor
    · rw [hnd.mem_erase_iff]
      constructor
      · intro hc
        exact absurd rfl hc.1
      · intro
        omega
    · exact hnd.erase _
  · simp only [if_neg h1]
    refine ⟨?_, hnd⟩
    constructor
    · intro
      omega
    · intro
      exact hinv.mpr (by omega)

/-- C7, amended: Subscribe/Unsubscribe reference-count the model: the
startup hook (initfunc, placement on the update list) runs exactly when
the incremented count is 1, and the shutdown hook (removal from the update
list) runs exactly when the decremented count is below 1 — on the 1→0
transition in matched use, but also on any further Unsubscribe; the model
is on the update list iff its count is at least 1 (an invariant both calls
preserve); after Subscribe three times and Unsubscribe twice, initfunc has
run once and shutdown has not; the third Unsubscribe runs shutdown and
removes the model from the update list. -/
theorem c7_amended (s : SubState)
    (hinv : s.mid ∈ s.updateList ↔ 1 ≤ s.subs) (hnd : s.updateList.Nodup) :
    ((SubscribeS s).mid ∈ (SubscribeS s).updateList ↔ 1 ≤ (SubscribeS s).subs) ∧
    (SubscribeS s).updateList.Nodup ∧
    ((UnsubscribeS s).mid ∈ (UnsubscribeS s).updateList ↔ 1 ≤ (UnsubscribeS s).subs) ∧
    (UnsubscribeS s).updateList.Nodup ∧
    ((SubscribeS s).subs = 1 →
      (SubscribeS s).events =
        s.events ++ (if s.hasInit then [SubEvent.initfuncE] else [])
          ++ [SubEvent.startupE]) ∧
    ((SubscribeS s).subs ≠ 1 → (SubscribeS s).events = s.events) ∧
    ((UnsubscribeS s).subs < 1 →
      (UnsubscribeS s).events = s.events ++ [SubEvent.shutdownE]) ∧
    (1 ≤ (UnsubscribeS s).subs → (UnsubscribeS s).events = s.events) ∧
    ((UnsubscribeS (UnsubscribeS (SubscribeS (SubscribeS (SubscribeS
        (⟨0, true, 7, [], 0, []⟩ : SubState)))))).events.count SubEvent.initfuncE = 1 ∧
     SubEvent.shutdownE ∉ (UnsubscribeS (UnsubscribeS (SubscribeS (SubscribeS (SubscribeS
        (⟨0, true, 7, [], 0, []⟩ : SubState)))))).events ∧
     SubEvent.shutdownE ∈ (UnsubscribeS (UnsubscribeS (UnsubscribeS (SubscribeS (SubscribeS
        (SubscribeS (⟨0, true, 7, [], 0, []⟩ : SubState))))))).events ∧
     7 ∉ (UnsubscribeS (UnsubscribeS (UnsubscribeS (SubscribeS (SubscribeS
        (SubscribeS (⟨0, true, 7, [], 0, []⟩ : SubState))))))).updateList) := by
  obtain ⟨ha, hb⟩ := SubscribeS_updList s hinv hnd
  obtain ⟨hc, hd⟩ := UnsubscribeS_updList s hinv hnd
  refine ⟨ha, hb, hc, hd, ?_, ?_, ?_, ?_, by decide⟩
  · rw [SubscribeS_subs]
    intro h1
    unfold SubscribeS StartupS
    simp only [if_pos h1]
  · rw [SubscribeS_subs]
    intro h1
    unfold SubscribeS StartupS
    simp only [if_neg h1]
  · rw [UnsubscribeS_subs]
    intro h1
    unfold UnsubscribeS ShutdownS
    simp only [if_pos h1]
  · rw [UnsubscribeS_subs]
    intro h1
    unfold UnsubscribeS ShutdownS
    simp only [if_neg (by omega : ¬ s.subs - 1 < 1)]

/-- C7 witness at a fresh model state. -/
theorem c7_amended_witness :
    (SubscribeS ⟨0, false, 3, [], 0, []⟩).mid ∈
        (SubscribeS ⟨0, false, 3, [], 0, []⟩).updateList ↔
      1 ≤ (SubscribeS ⟨0, false, 3, [], 0, []⟩).subs :=
  (c7_amended ⟨0, false, 3, [], 0, []⟩ (by simp) (by simp)).1

/-- C7, counterexample: Unsubscribe at count 0 runs the shutdown hook even
though the transition is 0 → −1, not 1 → 0, so the shutdown hook does not
run exactly on 1 → 0 transitions. -/
theorem c7_counterexample :
    (⟨0, true, 7, [], 0, []⟩ : SubState).subs ≠ 1 ∧
    SubEvent.shutdownE ∈ (UnsubscribeS ⟨0, true, 7, [], 0, []⟩).events := by
  decide


/-- C5: after any SetVelocity(v) call the model is on the world's velocity
list iff some component of v is nonzero; the call maintains the
flag/list-membership invariant in both directions, stores the velocity and
fires the velocity callback. -/
theorem c5_set_velocity (s : SimState) (v : Velocity)
    (hsync : s.m.on_velocity_list = true ↔ s.m.id ∈ s.velocity_list)
    (hnd : s.velocity_list.Nodup) :
    ((SetVelocityF s v).m.id ∈ (SetVelocityF s v).velocity_list ↔
      velocity_is_nonzero v) ∧
    ((SetVelocityF s v).m.on_velocity_list = true ↔
      (SetVelocityF s v).m.id ∈ (SetVelocityF s v).velocity_list) ∧
    (SetVelocityF s v).velocity_list.Nodup ∧
    (SetVelocityF s v).m.velocity = v ∧
    (SetVelocityF s v).events = s.events ++ [CbKey.velocityK] := by
  by_cases hv : velocity_is_nonzero v <;> by_cases hf : s.m.on_velocity_list = true
  · have hm : s.m.id ∈ s.velocity_list := hsync.mp hf
    simp only [SetVelocityF, hf, hv]
    simp [hm, hnd]
  · have hm : s.m.id ∉ s.velocity_list := fun h => hf (hsync.mpr h)
    simp only [SetVelocityF, hf, hv]
    simp [hm, hnd, List.nodup_cons]
  · have hm : s.m.id ∈ s.velocity_list := hsync.mp hf
    have hni : s.m.id ∉ s.velocity_list.erase s.m.id := fun hin =>
      absurd rfl (hnd.mem_erase_iff.mp hin).1
    simp only [SetVelocityF, hf, hv]
    simp [hm, hni, hnd, List.Nodup.erase]
  · have hm : s.m.id ∉ s.velocity_list := fun h => hf (hsync.mpr h)
    simp only [SetVelocityF, hf, hv]
    simp [hm, hnd]

/-- C5 witness: setting a nonzero velocity on a fresh off-list model. -/
theorem c5_set_velocity_witness :
    (SetVelocityF ⟨⟨0, zeroPose, zeroPose, [], ⟨0, 0, 0, 0⟩, false, 0, false,
        false, []⟩, [], [], []⟩ ⟨1, 0, 0, 0⟩).m.id ∈
      (SetVelocityF ⟨⟨0, zeroPose, zeroPose, [], ⟨0, 0, 0, 0⟩, false, 0, false,
        false, []⟩, [], [], []⟩ ⟨1, 0, 0, 0⟩).velocity_list ↔
    velocity_is_nonzero ⟨1, 0, 0, 0⟩ :=
  (c5_set_velocity ⟨⟨0, zeroPose, zeroPose, [], ⟨0, 0, 0, 0⟩, false, 0, false,
      false, []⟩, [], [], []⟩ ⟨1, 0, 0, 0⟩ (by simp) (by simp)).1

theorem trail_push_length (tr : List TrailItem) (c : TrailItem) :
    (trail_push tr c).length =
      if 100 < tr.length then tr.length else tr.length + 1 := by
  unfold trail_push
  split_ifs with h
  · simp [List.length_tail]
    omega
  · simp

theorem UpdatePoseF_trail (w : KWorld) (s : SimState) (hd : s.m.disabled = false) :
    (UpdatePoseF w s).m.trail =
      if w.updates % 10 = 0 then
        trail_push s.m.trail ⟨s.m.pose, s.m.color, w.sim_time⟩
      else s.m.trail := by
  unfold UpdatePoseF
  rw [if_neg (by simp [hd])]
  split
  all_goals
    dsimp only
    split
    · simp [SetStallK]
    · unfold SetPoseK
      split_ifs <;> simp [SetStallK]

theorem UpdatePoseF_disabled (w : KWorld) (s : SimState) :
    (UpdatePoseF w s).m.disabled = s.m.disabled := by
  unfold UpdatePoseF
  split_ifs with h
  all_goals try rfl
  all_goals
    dsimp only
    split
    · simp [SetStallK]
    · unfold SetPoseK
      split_ifs <;> simp [SetStallK]

theorem iterTick_trail_len (n : ℕ) (w : KWorld) (s : SimState)
    (hd : s.m.disabled = false) (hL : s.m.trail.length ≤ 101) :
    (iterTick n (w, s)).2.m.trail.length =
      min (s.m.trail.length + appendCount w.updates n) 101 := by
  induction n generalizing w s with
  | zero =>
    simp [iterTick, appendCount]
    omega
  | succ n ih =>
    have hstep : iterTick (n + 1) (w, s) = iterTick n (TickK (w, s)) := rfl
    rw [hstep]
    have hd' : (UpdatePoseF w s).m.disabled = false := by
      rw [UpdatePoseF_disabled]
      exact hd
    have htr := UpdatePoseF_trail w s hd
    have hlen : (UpdatePoseF w s).m.trail.length =
        if w.updates % 10 = 0 then
          (if 100 < s.m.trail.length then s.m.trail.length
           else s.m.trail.length + 1)
        else s.m.trail.length := by
      rw [htr]
      split_ifs with h1 h2 h2 <;> simp [trail_push_length] <;> omega
    have hL' : (UpdatePoseF w s).m.trail.length ≤ 101 := by
      rw [hlen]
      split_ifs <;> omega
    have hrec := ih { w with sim_time := w.sim_time + w.interval_sim,
                             updates := w.updates + 1 } (UpdatePoseF w s) hd' hL'
    unfold TickK
    dsimp only
    rw [hrec]
    dsimp only
    rw [hlen, appendCount]
    split_ifs with h1 h2 <;> omega

theorem appendCount_add (a b u : ℕ) :
    appendCount u (a + b) = appendCount u a + appendCount (u + a) b := by
  induction a generalizing u with
  | zero => simp [appendCount]
  | succ a ih =>
    rw [show a + 1 + b = (a + b) + 1 by omega]
    rw [appendCount, appendCount, ih (u + 1)]
    rw [show u + 1 + a = u + (a + 1) by omega]
    omega

theorem appendCount_ten (u : ℕ) (h : u % 10 = 0) : appendCount u 10 = 1 := by
  have h1 : ¬ (u + 1) % 10 = 0 := by omega
  have h2 : ¬ (u + 1 + 1) % 10 = 0 := by omega
  have h3 : ¬ (u + 1 + 1 + 1) % 10 = 0 := by omega
  have h4 : ¬ (u + 1 + 1 + 1 + 1) % 10 = 0 := by omega
  have h5 : ¬ (u + 1 + 1 + 1 + 1 + 1) % 10 = 0 := by omega
  have h6 : ¬ (u + 1 + 1 + 1 + 1 + 1 + 1) % 10 = 0 := by omega
  have h7 : ¬ (u + 1 + 1 + 1 + 1 + 1 + 1 + 1) % 10 = 0 := by omega
  have h8 : ¬ (u + 1 + 1 + 1 + 1 + 1 + 1 + 1 + 1) % 10 = 0 := by omega
  have h9 : ¬ (u + 1 + 1 + 1 + 1 + 1 + 1 + 1 + 1 + 1) % 10 = 0 := by omega
  show appendCount u (9 + 1) = 1
  repeat rw [appendCount]
  simp [h, h1, h2, h3, h4, h5, h6, h7, h8, h9]

theorem appendCount_mul (k u : ℕ) (h : u % 10 = 0) :
    appendCount u (10 * k) = k := by
  induction k generalizing u with
  | zero => rfl
  | succ k ih =>
    rw [show 10 * (k + 1) = 10 + 10 * k by ring]
    rw [appendCount_add 10 (10 * k) u, appendCount_ten u h,
      ih (u + 10) (by omega)]
    omega

theorem c6_scenario_len :
    (iterTick 2000 (⟨fun _ => true, 0, 0, 1000000⟩,
      ⟨⟨0, zeroPose, zeroPose, [], ⟨1 / 2, 0, 0, 0⟩, false, 0, false, true, []⟩,
       [], [0], []⟩)).2.m.trail.length = 101 := by
  rw [iterTick_trail_len 2000 _ _ rfl (by simp)]
  have h200 : appendCount 0 2000 = 200 := by
    rw [show (2000 : ℕ) = 10 * 200 by norm_num]
    exact appendCount_mul 200 0 rfl
  simp [h200]

/-- C6, amended: UpdatePose appends a trail checkpoint exactly on ticks
whose world update counter is a multiple of 10; the trail is bounded to
101 entries (the source drops the oldest entry only when an append finds
the length already above 100, so the list settles at 101, not 100), and
after 2000 ticks of a moving model the trail length is exactly 101. -/
theorem c6_amended (w : KWorld) (s : SimState) (tr : List TrailItem)
    (c : TrailItem) (hd : s.m.disabled = false) :
    ((UpdatePoseF w s).m.trail =
      if w.updates % 10 = 0 then
        trail_push s.m.trail ⟨s.m.pose, s.m.color, w.sim_time⟩
      else s.m.trail) ∧
    (100 < tr.length → trail_push tr c = tr.tail ++ [c]) ∧
    (tr.length ≤ 100 → trail_push tr c = tr ++ [c]) ∧
    (s.m.trail.length ≤ 101 → (UpdatePoseF w s).m.trail.length ≤ 101) ∧
    (iterTick 2000 (⟨fun _ => true, 0, 0, 1000000⟩,
      ⟨⟨0, zeroPose, zeroPose, [], ⟨1 / 2, 0, 0, 0⟩, false, 0, false, true, []⟩,
       [], [0], []⟩)).2.m.trail.length = 101 := by
  refine ⟨UpdatePoseF_trail w s hd, ?_, ?_, ?_, c6_scenario_len⟩
  · intro h
    unfold trail_push
    rw [if_pos h]
  · intro h
    unfold trail_push
    rw [if_neg (by omega)]
  · intro hL
    rw [UpdatePoseF_trail w s hd]
    split_ifs
    · rw [trail_push_length]
      split_ifs <;> omega
    · exact hL

/-- C6 witness: the trail equation of one UpdatePose call on a concrete
enabled model at update counter 1. -/
theorem c6_amended_witness :
    (UpdatePoseF ⟨fun _ => true, 1, 0, 1000000⟩
        ⟨⟨0, zeroPose, zeroPose, [], ⟨1 / 2, 0, 0, 0⟩, false, 0, false, true, []⟩,
         [], [0], []⟩).m.trail =
      if (⟨fun _ => true, 1, 0, 1000000⟩ : KWorld).updates % 10 = 0 then
        trail_push
          (⟨⟨0, zeroPose, zeroPose, [], ⟨1 / 2, 0, 0, 0⟩, false, 0, false, true, []⟩,
            [], [0], []⟩ : SimState).m.trail
          ⟨(⟨⟨0, zeroPose, zeroPose, [], ⟨1 / 2, 0, 0, 0⟩, false, 0, false, true, []⟩,
             [], [0], []⟩ : SimState).m.pose,
           (⟨⟨0, zeroPose, zeroPose, [], ⟨1 / 2, 0, 0, 0⟩, false, 0, false, true, []⟩,
             [], [0], []⟩ : SimState).m.color,
           (⟨fun _ => true, 1, 0, 1000000⟩ : KWorld).sim_time⟩
      else (⟨⟨0, zeroPose, zeroPose, [], ⟨1 / 2, 0, 0, 0⟩, false, 0, false, true, []⟩,
            [], [0], []⟩ : SimState).m.trail :=
  (c6_amended ⟨fun _ => true, 1, 0, 1000000⟩
    ⟨⟨0, zeroPose, zeroPose, [], ⟨1 / 2, 0, 0, 0⟩, false, 0, false, true, []⟩,
     [], [0], []⟩ [] ⟨zeroPose, 0, 0⟩ rfl).1

/-- C6, counterexample: after 2000 ticks of a moving model the trail holds
101 entries, so the length does exceed 100. -/
theorem c6_counterexample :
    ¬ ((iterTick 2000 (⟨fun _ => true, 0, 0, 1000000⟩,
      ⟨⟨0, zeroPose, zeroPose, [], ⟨1 / 2, 0, 0, 0⟩, false, 0, false, true, []⟩,
       [], [0], []⟩)).2.m.trail.length ≤ 100) := by
  rw [c6_scenario_len]
  norm_num

/-- C10 witness: a chain 1 → 2 → 3 with test model 9 falls off the root. -/
theorem c10_antecedent_error_witness : IsAntecedentC 1 [2, 3] 9 = none :=
  c10_antecedent_error 1 [2, 3] 9 (by decide)

theorem MTree.eta (t : MTree) : MTree.mk t.val t.children = t := by
  cases t
  rfl

/-- C4: SetPose(p) with p different from the current pose unmaps the model
and all descendants, normalizes the heading into (−π, π], stores the pose,
marks the whole subtree gpose-dirty and remaps it at the new global poses;
the pose callback fires on every call, and when p equals the old pose
nothing else changes. -/
theorem c4_set_pose (P : Pose) (psz : ℝ) (idx : List MappedBlock) (t : MTree)
    (p : Pose) (ev : List CbKey) (hne : p ≠ t.val.pose) :
    SetPoseT P psz idx t t.val.pose ev = (t, idx, ev ++ [CbKey.poseK]) ∧
    (SetPoseT P psz idx t p ev).2.2 = ev ++ [CbKey.poseK] ∧
    (SetPoseT P psz idx t p ev).1.val.pose = ⟨p.x, p.y, p.z, normalizeAngle p.a⟩ ∧
    normalizeAngle p.a ∈ Set.Ioc (-Real.pi) Real.pi ∧
    (SetPoseT P psz idx t p ev).1.AllDirty ∧
    (SetPoseT P psz idx t p ev).2.1 =
      idx.filter (fun mb => mb.model ∉ t.ids)
        ++ mapTree P psz (SetPoseT P psz idx t p ev).1 ∧
    (SetPoseT P psz idx t p ev).2.1.filter (fun mb => mb.model ∉ t.ids) =
      idx.filter (fun mb => mb.model ∉ t.ids) := by
  have hcond : ¬ t.val.pose = p := fun h => hne h.symm
  refine ⟨?_, ?_, ?_, normalizeAngle_mem_Ioc p.a, ?_, ?_, ?_⟩
  · rw [SetPoseT, if_pos rfl]
  · rw [SetPoseT, if_neg hcond]
  · rw [SetPoseT, if_neg hcond]
    rfl
  · rw [SetPoseT, if_neg hcond]
    exact MTree.setDirtyAll_allDirty _
  · rw [SetPoseT, if_neg hcond]
  · rw [SetPoseT, if_neg hcond]
    have hids : (MTree.setDirtyAll
        (.mk { t.val with pose := { p with a := normalizeAngle p.a } }
          t.children)).ids = t.ids := by
      rw [MTree.setDirtyAll_ids]
      show t.val.id :: t.children.idsF = t.ids
      conv_rhs => rw [← MTree.eta t]
      rw [MTree.ids]
    dsimp only
    rw [List.filter_append]
    have h1 : (idx.filter (fun mb => mb.model ∉ t.ids)).filter
        (fun mb => mb.model ∉ t.ids) = idx.filter (fun mb => mb.model ∉ t.ids) := by
      apply List.filter_eq_self.mpr
      intro mb hmb
      exact (List.mem_filter.mp hmb).2
    have h2 : (mapTree P psz (MTree.setDirtyAll
        (.mk { t.val with pose := { p with a := normalizeAngle p.a } }
          t.children))).filter (fun mb => mb.model ∉ t.ids) = [] := by
      rw [List.filter_eq_nil_iff]
      intro mb hmb
      have := mapTree_models _ _ _ mb hmb
      rw [hids] at this
      simp [this]
    rw [h1, h2, List.append_nil]

/-- C4 witness at a concrete one-node tree and a genuinely new pose. -/
theorem c4_set_pose_witness :
    SetPoseT zeroPose 0 [] (.mk ⟨0, zeroPose, zeroPose, 0, [], false⟩ .nil)
        (MTree.mk ⟨0, zeroPose, zeroPose, 0, [], false⟩ .nil).val.pose [] =
      (.mk ⟨0, zeroPose, zeroPose, 0, [], false⟩ .nil, [], [] ++ [CbKey.poseK]) :=
  (c4_set_pose zeroPose 0 [] (.mk ⟨0, zeroPose, zeroPose, 0, [], false⟩ .nil)
    ⟨1, 0, 0, 0⟩ [] (by simp [MTree.val, zeroPose])).1

theorem no_meet_of_sep_x {p q r s : Point} {c : ℝ}
    (hp : p.x ≤ c) (hq : q.x ≤ c) (hr : c < r.x) (hs : c < s.x) :
    ∀ t, ¬ SegMeet p q r s t := by
  rintro t ⟨ht0, ht1, u, hu0, hu1, heq⟩
  have h1 : (segPt p q t).x ≤ c := by
    simp only [segPt]
    rcases le_total p.x q.x with h | h
    · nlinarith [mul_le_of_le_one_left (sub_nonneg.mpr h) ht1]
    · nlinarith [mul_nonneg ht0 (sub_nonneg.mpr h)]
  have h2 : c < (segPt r s u).x := by
    simp only [segPt]
    rcases le_total r.x s.x with h | h
    · nlinarith [mul_nonneg hu0 (sub_nonneg.mpr h)]
    · nlinarith [mul_nonneg (by linarith : (0 : ℝ) ≤ 1 - u) (sub_nonneg.mpr h)]
  rw [heq] at h1
  linarith

theorem no_meet_of_sep_x' {p q r s : Point} {c : ℝ}
    (hp : c < p.x) (hq : c < q.x) (hr : r.x ≤ c) (hs : s.x ≤ c) :
    ∀ t, ¬ SegMeet p q r s t := by
  rintro t ⟨ht0, ht1, u, hu0, hu1, heq⟩
  have h1 : c < (segPt p q t).x := by
    simp only [segPt]
    rcases le_total p.x q.x with h | h
    · nlinarith [mul_nonneg ht0 (sub_nonneg.mpr h)]
    · nlinarith [mul_nonneg (by linarith : (0 : ℝ) ≤ 1 - t) (sub_nonneg.mpr h)]
  have h2 : (segPt r s u).x ≤ c := by
    simp only [segPt]
    rcases le_total r.x s.x with h | h
    · nlinarith [mul_le_of_le_one_left (sub_nonneg.mpr h) hu1]
    · nlinarith [mul_nonneg hu0 (sub_nonneg.mpr h)]
  rw [heq] at h1
  linarith

theorem no_meet_of_sep_y {p q r s : Point} {c : ℝ}
    (hp : p.y ≤ c) (hq : q.y ≤ c) (hr : c < r.y) (hs : c < s.y) :
    ∀ t, ¬ SegMeet p q r s t := by
  rintro t ⟨ht0, ht1, u, hu0, hu1, heq⟩
  have h1 : (segPt p q t).y ≤ c := by
    simp only [segPt]
    rcases le_total p.y q.y with h | h
    · nlinarith [mul_le_of_le_one_left (sub_nonneg.mpr h) ht1]
    · nlinarith [mul_nonneg ht0 (sub_nonneg.mpr h)]
  have h2 : c < (segPt r s u).y := by
    simp only [segPt]
    rcases le_total r.y s.y with h | h
    · nlinarith [mul_nonneg hu0 (sub_nonneg.mpr h)]
    · nlinarith [mul_nonneg (by linarith : (0 : ℝ) ≤ 1 - u) (sub_nonneg.mpr h)]
  rw [heq] at h1
  linarith

theorem no_meet_of_sep_y' {p q r s : Point} {c : ℝ}
    (hp : c < p.y) (hq : c < q.y) (hr : r.y ≤ c) (hs : s.y ≤ c) :
    ∀ t, ¬ SegMeet p q r s t := by
  rintro t ⟨ht0, ht1, u, hu0, hu1, heq⟩
  have h1 : c < (segPt p q t).y := by
    simp only [segPt]
    rcases le_total p.y q.y with h | h
    · nlinarith [mul_nonneg ht0 (sub_nonneg.mpr h)]
    · nlinarith [mul_nonneg (by linarith : (0 : ℝ) ≤ 1 - t) (sub_nonneg.mpr h)]
  have h2 : (segPt r s u).y ≤ c := by
    simp only [segPt]
    rcases le_total r.y s.y with h | h
    · nlinarith [mul_le_of_le_one_left (sub_nonneg.mpr h) hu1]
    · nlinarith [mul_nonneg hu0 (sub_nonneg.mpr h)]
  rw [heq] at h1
  linarith

theorem raytrace_first_nil (pred : MappedBlock → Prop) (p q : Point) (z : ℝ) :
    raytrace_first pred p q z [] = none := by
  rw [raytrace_first]

theorem raytrace_first_cons_neg {pred : MappedBlock → Prop} {p q : Point}
    {z : ℝ} {mb : MappedBlock} {rest : List MappedBlock}
    (h : ¬ (pred mb ∧ RayHits mb z p q)) :
    raytrace_first pred p q z (mb :: rest) = raytrace_first pred p q z rest := by
  rw [raytrace_first, if_neg h]

theorem raytrace_first_cons_pos_none {pred : MappedBlock → Prop} {p q : Point}
    {z : ℝ} {mb : MappedBlock} {rest : List MappedBlock}
    (h : pred mb ∧ RayHits mb z p q)
    (hrest : raytrace_first pred p q z rest = none) :
    raytrace_first pred p q z (mb :: rest) = some mb := by
  rw [raytrace_first, hrest, if_pos h]

theorem raytrace_first_some {pred : MappedBlock → Prop} {p q : Point} {z : ℝ} :
    ∀ {idx : List MappedBlock} {mb : MappedBlock},
      raytrace_first pred p q z idx = some mb →
      mb ∈ idx ∧ pred mb ∧ RayHits mb z p q := by
  intro idx
  induction idx with
  | nil =>
    intro mb h
    rw [raytrace_first] at h
    cases h
  | cons hd rest ih =>
    intro mb h
    rw [raytrace_first] at h
    by_cases hc : pred hd ∧ RayHits hd z p q
    · rw [if_pos hc] at h
      rcases hr : raytrace_first pred p q z rest with _ | mb0
      · rw [hr] at h
        cases h
        exact ⟨List.mem_cons_self _ _, hc⟩
      · rw [hr] at h
        dsimp only at h
        split_ifs at h
        · cases h
          have := ih hr
          exact ⟨List.mem_cons_of_mem _ this.1, this.2⟩
        · cases h
          exact ⟨List.mem_cons_self _ _, hc⟩
    · rw [if_neg hc] at h
      have := ih h
      exact ⟨List.mem_cons_of_mem _ this.1, this.2⟩

theorem block_no_hit {mb : MappedBlock} {z : ℝ} {p q : Point}
    (h : ∀ e ∈ edges mb.pts, ∀ t, ¬ SegMeet p q e.1 e.2 t) :
    ¬ RayHits mb z p q := by
  rintro ⟨_, e, he, t, hm⟩
  exact h e he t hm

theorem edge_ray_z (m : KModel) (d : Pose) (e : Point × Point) :
    (edge_ray m d e).1.z = m.pose.z + m.geomPose.z + d.z := by
  simp [edge_ray, LocalToGlobalP, pose_sum]

theorem edge_ray_pts (m : KModel) (d : Pose) (e : Point × Point) :
    ray_endpoints (edge_ray m d e).1 (edge_ray m d e).2 =
      (apply_pose (pose_sum (pose_sum m.pose m.geomPose) d) e.1,
       apply_pose (pose_sum (pose_sum m.pose m.geomPose) d) e.2) := by
  unfold edge_ray ray_endpoints LocalToGlobalP
  dsimp only
  rw [← pose_sum_assoc]
  set M := pose_sum (pose_sum m.pose m.geomPose) d with hM
  have hc := hypot_cos_atan2 M.a (e.2.x - e.1.x) (e.2.y - e.1.y)
  have hs := hypot_sin_atan2 M.a (e.2.x - e.1.x) (e.2.y - e.1.y)
  simp only [pose_sum, apply_pose, Prod.mk.injEq, Point.mk.injEq]
  refine ⟨trivial, ?_, ?_⟩
  · linear_combination hc
  · linear_combination hs

theorem TestCollision_eq (obsRet : ℕ → Bool) (idx : List MappedBlock)
    (m : KModel) (d : Pose) (hb : ¬ m.blocks = []) :
    TestCollision obsRet idx m d =
      (TCEdges m).foldl
        (fun hitmod e =>
          match raytrace_first (collision_match obsRet m.id)
              (apply_pose (pose_sum (pose_sum m.pose m.geomPose) d) e.1)
              (apply_pose (pose_sum (pose_sum m.pose m.geomPose) d) e.2)
              (m.pose.z + m.geomPose.z + d.z)
              (unmap_model idx m.id) with
          | some mb => some mb.model
          | none => hitmod)
        none := by
  unfold TestCollision
  rw [if_neg hb]
  congr 1
  funext hitmod e
  dsimp only
  rw [edge_ray_pts m d e, edge_ray_z m d e]

theorem TestCollision_trail (obsRet : ℕ → Bool) (idx : List MappedBlock)
    (m : KModel) (tr : List TrailItem) (d : Pose) :
    TestCollision obsRet idx { m with trail := tr } d =
      TestCollision obsRet idx m d := rfl

theorem TestCollision_self_entries (obsRet : ℕ → Bool)
    (idx extra : List MappedBlock) (m : KModel) (d : Pose)
    (hex : ∀ mb ∈ extra, mb.model = m.id) :
    TestCollision obsRet (idx ++ extra) m d = TestCollision obsRet idx m d := by
  have hun : unmap_model (idx ++ extra) m.id = unmap_model idx m.id := by
    unfold unmap_model
    rw [List.filter_append]
    have : extra.filter (fun mb => mb.model ≠ m.id) = [] := by
      rw [List.filter_eq_nil_iff]
      intro mb hmb
      simp [hex mb hmb]
    rw [this, List.append_nil]
  unfold TestCollision
  rw [hun]

theorem tc_fold_some (rtf : (Point × Point) → Option MappedBlock) (hm : ℕ) :
    ∀ (l : List (Point × Point)) (acc : Option ℕ),
      l.foldl
        (fun hitmod e =>
          match rtf e with
          | some mb => some mb.model
          | none => hitmod) acc = some hm →
      (∃ e ∈ l, ∃ mb, rtf e = some mb ∧ mb.model = hm) ∨ acc = some hm := by
  intro l
  induction l with
  | nil =>
    intro acc h
    exact Or.inr h
  | cons e l ih =>
    intro acc h
    rw [List.foldl_cons] at h
    rcases hr : rtf e with _ | mb
    · rw [hr] at h
      rcases ih acc h with ⟨e', he', hw⟩ | hacc
      · exact Or.inl ⟨e', List.mem_cons_of_mem _ he', hw⟩
      · exact Or.inr hacc
    · rw [hr] at h
      rcases ih (some mb.model) h with ⟨e', he', hw⟩ | hacc
      · exact Or.inl ⟨e', List.mem_cons_of_mem _ he', hw⟩
      · refine Or.inl ⟨e, List.mem_cons_self _ _, mb, hr, ?_⟩
        injection hacc

theorem tc_fold_none (rtf : (Point × Point) → Option MappedBlock) :
    ∀ (l : List (Point × Point)) (acc : Option ℕ),
      (∀ e ∈ l, rtf e = none) →
      l.foldl
        (fun hitmod e =>
          match rtf e with
          | some mb => some mb.model
          | none => hitmod) acc = acc := by
  intro l
  induction l with
  | nil =>
    intro acc _
    rfl
  | cons e l ih =>
    intro acc h
    rw [List.foldl_cons]
    have he := h e (List.mem_cons_self _ _)
    rw [he]
    exact ih acc (fun e' he' => h e' (List.mem_cons_of_mem _ he'))

theorem TCEdges_modelA (vx : ℝ) :
    TCEdges (modelA vx) =
      [(⟨-(1 / 2), -(1 / 2)⟩, ⟨1 / 2, -(1 / 2)⟩),
       (⟨1 / 2, -(1 / 2)⟩, ⟨1 / 2, 1 / 2⟩),
       (⟨1 / 2, 1 / 2⟩, ⟨-(1 / 2), 1 / 2⟩),
       (⟨-(1 / 2), 1 / 2⟩, ⟨-(1 / 2), -(1 / 2)⟩)] := by
  simp [TCEdges, modelA, unitBlock, sqPts, edges, edgesAux]

theorem M_modelA (vx : ℝ) (d : Pose) :
    pose_sum (pose_sum (modelA vx).pose (modelA vx).geomPose) d = d := by
  show pose_sum (pose_sum zeroPose zeroPose) d = d
  rw [pose_sum_zero_left, pose_sum_zero_left]

theorem unmapAB : unmap_model [mappedA, mappedB] 0 = [mappedB] := by
  simp [unmap_model, mappedA, mappedB]

theorem keyB_far (v w : Point) (z : ℝ) (hv : 3 < v.x) (hw : 3 < w.x) :
    raytrace_first (collision_match (fun _ => true) 0) v w z [mappedB] = none := by
  have hno : ¬ (collision_match (fun _ => true) 0 mappedB ∧ RayHits mappedB z v w) := by
    rintro ⟨-, hhit⟩
    refine block_no_hit ?_ hhit
    intro e he t hm
    simp [mappedB, edges, edgesAux] at he
    rcases he with rfl | rfl | rfl | rfl <;>
      exact no_meet_of_sep_x' hv hw (by norm_num) (by norm_num) t hm
  rw [raytrace_first_cons_neg hno, raytrace_first_nil]

theorem keyB_near (v w : Point) (z : ℝ) (hv : v.x ≤ 1) (hw : w.x ≤ 1) :
    raytrace_first (collision_match (fun _ => true) 0) v w z [mappedB] = none := by
  have hno : ¬ (collision_match (fun _ => true) 0 mappedB ∧ RayHits mappedB z v w) := by
    rintro ⟨-, hhit⟩
    refine block_no_hit ?_ hhit
    intro e he t hm
    simp [mappedB, edges, edgesAux] at he
    rcases he with rfl | rfl | rfl | rfl <;>
      exact no_meet_of_sep_x hv hw (by norm_num) (by norm_num) t hm
  rw [raytrace_first_cons_neg hno, raytrace_first_nil]

theorem tc10 :
    TestCollision (fun _ => true) [mappedA, mappedB] (modelA 10) ⟨10, 0, 0, 0⟩
      = none := by
  rw [TestCollision_eq _ _ _ _ (by simp [modelA, unitBlock])]
  refine tc_fold_none _ _ _ ?_
  intro e he
  rw [TCEdges_modelA] at he
  rw [M_modelA]
  rw [show (modelA 10).id = 0 from rfl]
  rw [unmapAB]
  simp only [List.mem_cons, List.not_mem_nil, or_false] at he
  rcases he with rfl | rfl | rfl | rfl <;>
    rw [apply_pose_translation _ rfl, apply_pose_translation _ rfl] <;>
    exact keyB_far _ _ _ (by norm_num) (by norm_num)

theorem tc05 :
    TestCollision (fun _ => true) [mappedA, mappedB] (modelA (1 / 2))
      ⟨1 / 2, 0, 0, 0⟩ = none := by
  rw [TestCollision_eq _ _ _ _ (by simp [modelA, unitBlock])]
  refine tc_fold_none _ _ _ ?_
  intro e he
  rw [TCEdges_modelA] at he
  rw [M_modelA]
  rw [show (modelA (1 / 2)).id = 0 from rfl]
  rw [unmapAB]
  simp only [List.mem_cons, List.not_mem_nil, or_false] at he
  rcases he with rfl | rfl | rfl | rfl <;>
    rw [apply_pose_translation _ rfl, apply_pose_translation _ rfl] <;>
    exact keyB_near _ _ _ (by norm_num) (by norm_num)

theorem UpdatePoseF_some (w : KWorld) (s : SimState) (hm : ℕ)
    (hd : s.m.disabled = false)
    (htc : TestCollision w.obsRet s.idx s.m
        ⟨s.m.velocity.x * ((w.interval_sim : ℝ) / 1000000),
         s.m.velocity.y * ((w.interval_sim : ℝ) / 1000000), 0,
         s.m.velocity.a * ((w.interval_sim : ℝ) / 1000000)⟩ = some hm) :
    (UpdatePoseF w s).m.stall = true ∧
    (UpdatePoseF w s).m.pose = s.m.pose := by
  unfold UpdatePoseF
  rw [if_neg (by simp [hd])]
  dsimp only
  rw [TestCollision_trail, htc]
  exact ⟨rfl, rfl⟩

theorem UpdatePoseF_none (w : KWorld) (s : SimState)
    (hd : s.m.disabled = false)
    (htc : TestCollision w.obsRet s.idx s.m
        ⟨s.m.velocity.x * ((w.interval_sim : ℝ) / 1000000),
         s.m.velocity.y * ((w.interval_sim : ℝ) / 1000000), 0,
         s.m.velocity.a * ((w.interval_sim : ℝ) / 1000000)⟩ = none) :
    (UpdatePoseF w s).m.stall = false ∧
    (UpdatePoseF w s).m.pose.x =
      (pose_sum s.m.pose
        ⟨s.m.velocity.x * ((w.interval_sim : ℝ) / 1000000),
         s.m.velocity.y * ((w.interval_sim : ℝ) / 1000000), 0,
         s.m.velocity.a * ((w.interval_sim : ℝ) / 1000000)⟩).x ∧
    (UpdatePoseF w s).m.pose.y =
      (pose_sum s.m.pose
        ⟨s.m.velocity.x * ((w.interval_sim : ℝ) / 1000000),
         s.m.velocity.y * ((w.interval_sim : ℝ) / 1000000), 0,
         s.m.velocity.a * ((w.interval_sim : ℝ) / 1000000)⟩).y ∧
    (UpdatePoseF w s).m.pose.z =
      (pose_sum s.m.pose
        ⟨s.m.velocity.x * ((w.interval_sim : ℝ) / 1000000),
         s.m.velocity.y * ((w.interval_sim : ℝ) / 1000000), 0,
         s.m.velocity.a * ((w.interval_sim : ℝ) / 1000000)⟩).z ∧
    ((UpdatePoseF w s).m.pose.a =
      normalizeAngle ((pose_sum s.m.pose
        ⟨s.m.velocity.x * ((w.interval_sim : ℝ) / 1000000),
         s.m.velocity.y * ((w.interval_sim : ℝ) / 1000000), 0,
         s.m.velocity.a * ((w.interval_sim : ℝ) / 1000000)⟩).a) ∨
     (UpdatePoseF w s).m.pose.a =
      (pose_sum s.m.pose
        ⟨s.m.velocity.x * ((w.interval_sim : ℝ) / 1000000),
         s.m.velocity.y * ((w.interval_sim : ℝ) / 1000000), 0,
         s.m.velocity.a * ((w.interval_sim : ℝ) / 1000000)⟩).a) := by
  unfold UpdatePoseF
  rw [if_neg (by simp [hd])]
  dsimp only
  rw [TestCollision_trail, htc]
  unfold SetPoseK SetStallK
  dsimp only
  by_cases hp : s.m.pose = pose_sum s.m.pose
      ⟨s.m.velocity.x * ((w.interval_sim : ℝ) / 1000000),
       s.m.velocity.y * ((w.interval_sim : ℝ) / 1000000), 0,
       s.m.velocity.a * ((w.interval_sim : ℝ) / 1000000)⟩
  · rw [if_pos hp]
    exact ⟨rfl, by rw [← hp], by rw [← hp], by rw [← hp], Or.inr (by rw [← hp])⟩
  · rw [if_neg hp]
    exact ⟨rfl, rfl, rfl, rfl, Or.inl rfl⟩

theorem unmapC2 : unmap_model [mappedA, m1blk, m2blk] 0 = [m1blk, m2blk] := by
  simp [unmap_model, mappedA, m1blk, m2blk]

theorem keyM12_right (v w : Point) (z : ℝ) (hv : 1 / 4 < v.x) (hw : 1 / 4 < w.x) :
    raytrace_first (collision_match (fun _ => true) 0) v w z [m1blk, m2blk]
      = none := by
  have h1 : ¬ (collision_match (fun _ => true) 0 m1blk ∧ RayHits m1blk z v w) := by
    rintro ⟨-, hhit⟩
    refine block_no_hit ?_ hhit
    intro e he t hm
    simp [m1blk, edges, edgesAux] at he
    rcases he with rfl | rfl | rfl | rfl <;>
      exact no_meet_of_sep_x' hv hw (by norm_num) (by norm_num) t hm
  have h2 : ¬ (collision_match (fun _ => true) 0 m2blk ∧ RayHits m2blk z v w) := by
    rintro ⟨-, hhit⟩
    refine block_no_hit ?_ hhit
    intro e he t hm
    simp [m2blk, edges, edgesAux] at he
    rcases he with rfl | rfl | rfl | rfl <;>
      exact no_meet_of_sep_x' hv hw (by norm_num) (by norm_num) t hm
  rw [raytrace_first_cons_neg h1, raytrace_first_cons_neg h2, raytrace_first_nil]

theorem keyM12_left (v w : Point) (z : ℝ) (hv : v.x ≤ -(1 / 4)) (hw : w.x ≤ -(1 / 4)) :
    raytrace_first (collision_match (fun _ => true) 0) v w z [m1blk, m2blk]
      = none := by
  have h1 : ¬ (collision_match (fun _ => true) 0 m1blk ∧ RayHits m1blk z v w) := by
    rintro ⟨-, hhit⟩
    refine block_no_hit ?_ hhit
    intro e he t hm
    simp [m1blk, edges, edgesAux] at he
    rcases he with rfl | rfl | rfl | rfl <;>
      exact no_meet_of_sep_x hv hw (by norm_num) (by norm_num) t hm
  have h2 : ¬ (collision_match (fun _ => true) 0 m2blk ∧ RayHits m2blk z v w) := by
    rintro ⟨-, hhit⟩
    refine block_no_hit ?_ hhit
    intro e he t hm
    simp [m2blk, edges, edgesAux] at he
    rcases he with rfl | rfl | rfl | rfl <;>
      exact no_meet_of_sep_x hv hw (by norm_num) (by norm_num) t hm
  rw [raytrace_first_cons_neg h1, raytrace_first_cons_neg h2, raytrace_first_nil]

theorem rt_e0 :
    raytrace_first (collision_match (fun _ => true) 0)
      ⟨-(1 / 2), -(1 / 2)⟩ ⟨1 / 2, -(1 / 2)⟩ 0 [m1blk, m2blk] = some m1blk := by
  have hrest : raytrace_first (collision_match (fun _ => true) 0)
      ⟨-(1 / 2), -(1 / 2)⟩ ⟨1 / 2, -(1 / 2)⟩ 0 [m2blk] = none := by
    have h2 : ¬ (collision_match (fun _ => true) 0 m2blk ∧
        RayHits m2blk 0 ⟨-(1 / 2), -(1 / 2)⟩ ⟨1 / 2, -(1 / 2)⟩) := by
      rintro ⟨-, hhit⟩
      refine block_no_hit ?_ hhit
      intro e he t hm
      simp [m2blk, edges, edgesAux] at he
      rcases he with rfl | rfl | rfl | rfl <;>
        exact no_meet_of_sep_y (c := 0) (by norm_num) (by norm_num) (by norm_num)
          (by norm_num) t hm
    rw [raytrace_first_cons_neg h2, raytrace_first_nil]
  have hhit : collision_match (fun _ => true) 0 m1blk ∧
      RayHits m1blk 0 ⟨-(1 / 2), -(1 / 2)⟩ ⟨1 / 2, -(1 / 2)⟩ := by
    refine ⟨⟨by norm_num [m1blk], rfl⟩, ⟨by norm_num [m1blk], by norm_num [m1blk]⟩, ?_⟩
    refine ⟨(⟨1 / 10, -1⟩, ⟨1 / 10, 0⟩), by simp [m1blk, edges, edgesAux], 3 / 5, ?_⟩
    refine ⟨by norm_num, by norm_num, 1 / 2, by norm_num, by norm_num, ?_⟩
    simp only [segPt, Point.mk.injEq]
    norm_num
  exact raytrace_first_cons_pos_none hhit hrest

theorem rt_e2 :
    raytrace_first (collision_match (fun _ => true) 0)
      ⟨1 / 2, 1 / 2⟩ ⟨-(1 / 2), 1 / 2⟩ 0 [m1blk, m2blk] = some m2blk := by
  have h1 : ¬ (collision_match (fun _ => true) 0 m1blk ∧
      RayHits m1blk 0 ⟨1 / 2, 1 / 2⟩ ⟨-(1 / 2), 1 / 2⟩) := by
    rintro ⟨-, hhit⟩
    refine block_no_hit ?_ hhit
    intro e he t hm
    simp [m1blk, edges, edgesAux] at he
    rcases he with rfl | rfl | rfl | rfl <;>
      exact no_meet_of_sep_y' (c := 1 / 10) (by norm_num) (by norm_num)
        (by norm_num) (by norm_num) t hm
  have hhit : collision_match (fun _ => true) 0 m2blk ∧
      RayHits m2blk 0 ⟨1 / 2, 1 / 2⟩ ⟨-(1 / 2), 1 / 2⟩ := by
    refine ⟨⟨by norm_num [m2blk], rfl⟩, ⟨by norm_num [m2blk], by norm_num [m2blk]⟩, ?_⟩
    refine ⟨(⟨1 / 10, 1 / 5⟩, ⟨1 / 10, 1⟩), by simp [m2blk, edges, edgesAux], 2 / 5, ?_⟩
    refine ⟨by norm_num, by norm_num, 3 / 8, by norm_num, by norm_num, ?_⟩
    simp only [segPt, Point.mk.injEq]
    norm_num
  rw [raytrace_first_cons_neg h1]
  exact raytrace_first_cons_pos_none hhit (raytrace_first_nil _ _ _ _)

theorem tcC2 :
    TestCollision (fun _ => true) [mappedA, m1blk, m2blk] (modelA 0) zeroPose
      = some 2 := by
  rw [TestCollision_eq _ _ _ _ (by simp [modelA, unitBlock])]
  rw [TCEdges_modelA]
  have hz : (modelA 0).pose.z + (modelA 0).geomPose.z + zeroPose.z = 0 := by
    simp [modelA, zeroPose]
  simp only [M_modelA, hz, apply_pose_zero, show (modelA 0).id = 0 from rfl,
    unmapC2]
  simp only [List.foldl_cons, List.foldl_nil]
  rw [rt_e0]
  rw [keyM12_right ⟨1 / 2, -(1 / 2)⟩ ⟨1 / 2, 1 / 2⟩ 0 (by norm_num) (by norm_num)]
  rw [rt_e2]
  rw [keyM12_left ⟨-(1 / 2), 1 / 2⟩ ⟨-(1 / 2), -(1 / 2)⟩ 0 (by norm_num) (by norm_num)]
  simp [m2blk]

theorem scen10 :
    (UpdatePoseF worldAB (stateA 10)).m.stall = false ∧
    (UpdatePoseF worldAB (stateA 10)).m.pose.x = 10 := by
  have harg : (⟨(stateA 10).m.velocity.x * ((worldAB.interval_sim : ℝ) / 1000000),
      (stateA 10).m.velocity.y * ((worldAB.interval_sim : ℝ) / 1000000), 0,
      (stateA 10).m.velocity.a * ((worldAB.interval_sim : ℝ) / 1000000)⟩ : Pose)
      = ⟨10, 0, 0, 0⟩ := by
    norm_num [stateA, modelA, worldAB, Pose.mk.injEq]
  have htc : TestCollision worldAB.obsRet (stateA 10).idx (stateA 10).m
      ⟨(stateA 10).m.velocity.x * ((worldAB.interval_sim : ℝ) / 1000000),
       (stateA 10).m.velocity.y * ((worldAB.interval_sim : ℝ) / 1000000), 0,
       (stateA 10).m.velocity.a * ((worldAB.interval_sim : ℝ) / 1000000)⟩ = none := by
    rw [harg]
    exact tc10
  have h := UpdatePoseF_none worldAB (stateA 10) (by simp [stateA, modelA]) htc
  refine ⟨h.1, ?_⟩
  rw [h.2.1]
  norm_num [stateA, modelA, worldAB, pose_sum, zeroPose]

theorem scen05 :
    (UpdatePoseF worldAB (stateA (1 / 2))).m.stall = false ∧
    (UpdatePoseF worldAB (stateA (1 / 2))).m.pose.x = 1 / 2 := by
  have harg : (⟨(stateA (1 / 2)).m.velocity.x * ((worldAB.interval_sim : ℝ) / 1000000),
      (stateA (1 / 2)).m.velocity.y * ((worldAB.interval_sim : ℝ) / 1000000), 0,
      (stateA (1 / 2)).m.velocity.a * ((worldAB.interval_sim : ℝ) / 1000000)⟩ : Pose)
      = ⟨1 / 2, 0, 0, 0⟩ := by
    norm_num [stateA, modelA, worldAB, Pose.mk.injEq]
  have htc : TestCollision worldAB.obsRet (stateA (1 / 2)).idx (stateA (1 / 2)).m
      ⟨(stateA (1 / 2)).m.velocity.x * ((worldAB.interval_sim : ℝ) / 1000000),
       (stateA (1 / 2)).m.velocity.y * ((worldAB.interval_sim : ℝ) / 1000000), 0,
       (stateA (1 / 2)).m.velocity.a * ((worldAB.interval_sim : ℝ) / 1000000)⟩ = none := by
    rw [harg]
    exact tc05
  have h := UpdatePoseF_none worldAB (stateA (1 / 2)) (by simp [stateA, modelA]) htc
  refine ⟨h.1, ?_⟩
  rw [h.2.1]
  norm_num [stateA, modelA, worldAB, pose_sum, zeroPose]

/-- C1, amended: for an enabled model, UpdatePose computes the pose delta
(velocity.x dt, velocity.y dt, 0, velocity.a dt) with dt = interval_sim
converted from microseconds to seconds (the z velocity is ignored); on a
TestCollision hit it sets stall and leaves the pose unchanged, and
otherwise it clears stall and commits pose ⊕ delta (the heading then
normalized by SetPose).  In the S2 scenario the velocity-10 tick does NOT
stall: the displaced footprint has jumped clear past obstacle B, so after
one tick stall is false and A.pose.x is 10; with velocity 0.5 the claim's
numbers hold: pose.x = 0.5 and stall stays false. -/
theorem c1_amended (w : KWorld) (s : SimState) (hd : s.m.disabled = false) :
    ((∃ hm, TestCollision w.obsRet s.idx s.m
        ⟨s.m.velocity.x * ((w.interval_sim : ℝ) / 1000000),
         s.m.velocity.y * ((w.interval_sim : ℝ) / 1000000), 0,
         s.m.velocity.a * ((w.interval_sim : ℝ) / 1000000)⟩ = some hm) →
      (UpdatePoseF w s).m.stall = true ∧
      (UpdatePoseF w s).m.pose = s.m.pose) ∧
    (TestCollision w.obsRet s.idx s.m
        ⟨s.m.velocity.x * ((w.interval_sim : ℝ) / 1000000),
         s.m.velocity.y * ((w.interval_sim : ℝ) / 1000000), 0,
         s.m.velocity.a * ((w.interval_sim : ℝ) / 1000000)⟩ = none →
      (UpdatePoseF w s).m.stall = false ∧
      (UpdatePoseF w s).m.pose.x =
        (pose_sum s.m.pose
          ⟨s.m.velocity.x * ((w.interval_sim : ℝ) / 1000000),
           s.m.velocity.y * ((w.interval_sim : ℝ) / 1000000), 0,
           s.m.velocity.a * ((w.interval_sim : ℝ) / 1000000)⟩).x ∧
      (UpdatePoseF w s).m.pose.y =
        (pose_sum s.m.pose
          ⟨s.m.velocity.x * ((w.interval_sim : ℝ) / 1000000),
           s.m.velocity.y * ((w.interval_sim : ℝ) / 1000000), 0,
           s.m.velocity.a * ((w.interval_sim : ℝ) / 1000000)⟩).y ∧
      (UpdatePoseF w s).m.pose.z =
        (pose_sum s.m.pose
          ⟨s.m.velocity.x * ((w.interval_sim : ℝ) / 1000000),
           s.m.velocity.y * ((w.interval_sim : ℝ) / 1000000), 0,
           s.m.velocity.a * ((w.interval_sim : ℝ) / 1000000)⟩).z ∧
      ((UpdatePoseF w s).m.pose.a =
        normalizeAngle ((pose_sum s.m.pose
          ⟨s.m.velocity.x * ((w.interval_sim : ℝ) / 1000000),
           s.m.velocity.y * ((w.interval_sim : ℝ) / 1000000), 0,
           s.m.velocity.a * ((w.interval_sim : ℝ) / 1000000)⟩).a) ∨
       (UpdatePoseF w s).m.pose.a =
        (pose_sum s.m.pose
          ⟨s.m.velocity.x * ((w.interval_sim : ℝ) / 1000000),
           s.m.velocity.y * ((w.interval_sim : ℝ) / 1000000), 0,
           s.m.velocity.a * ((w.interval_sim : ℝ) / 1000000)⟩).a)) ∧
    (UpdatePoseF worldAB (stateA 10)).m.stall = false ∧
    (UpdatePoseF worldAB (stateA 10)).m.pose.x = 10 ∧
    (UpdatePoseF worldAB (stateA (1 / 2))).m.stall = false ∧
    (UpdatePoseF worldAB (stateA (1 / 2))).m.pose.x = 1 / 2 := by
  refine ⟨?_, ?_, scen10.1, scen10.2, scen05.1, scen05.2⟩
  · rintro ⟨hm, htc⟩
    exact UpdatePoseF_some w s hm hd htc
  · intro htc
    exact UpdatePoseF_none w s hd htc

/-- C1 witness: the stalled-free outcome of the concrete velocity-10
scenario, via the amended theorem at that state. -/
theorem c1_amended_witness :
    (UpdatePoseF worldAB (stateA 10)).m.stall = false :=
  (c1_amended worldAB (stateA 10) (by simp [stateA, modelA])).2.2.1

/-- C1, counterexample: in the S2 scenario with velocity 10 and a one
second interval, one UpdatePose tick leaves stall false and moves A to
x = 10, contradicting the claimed stall-true/no-movement outcome. -/
theorem c1_counterexample :
    ¬ ((UpdatePoseF worldAB (stateA 10)).m.stall = true ∧
       (UpdatePoseF worldAB (stateA 10)).m.pose.x = 0) := by
  rintro ⟨hs, -⟩
  rw [scen10.1] at hs
  cases hs

/-- C2, amended: TestCollision for a model with no blocks reports no
collision; the mover's own index entries are irrelevant (it is unmapped
before the rays run, and collision_match also rejects it); every reported
collision comes from a predicate-accepting block of another model with
obstacle_return set, crossed by some edge ray; and the reported model is
the one of the LAST edge whose raytrace accepts, not the first: in the
concrete two-obstacle scenario the first accepting hit (edge 0) is a block
of model 1, yet TestCollision reports model 2. -/
theorem c2_amended (obsR : ℕ → Bool) (idx extra : List MappedBlock)
    (m : KModel) (d : Pose) (hm : ℕ)
    (hex : ∀ mb ∈ extra, mb.model = m.id) :
    (m.blocks = [] → TestCollision obsR idx m d = none) ∧
    TestCollision obsR (idx ++ extra) m d = TestCollision obsR idx m d ∧
    (TestCollision obsR idx m d = some hm →
      hm ≠ m.id ∧ obsR hm = true ∧
      ∃ e ∈ TCEdges m, ∃ mb,
        raytrace_first (collision_match obsR m.id)
          (apply_pose (pose_sum (pose_sum m.pose m.geomPose) d) e.1)
          (apply_pose (pose_sum (pose_sum m.pose m.geomPose) d) e.2)
          (m.pose.z + m.geomPose.z + d.z)
          (unmap_model idx m.id) = some mb ∧
        mb.model = hm ∧ mb ∈ unmap_model idx m.id ∧
        collision_match obsR m.id mb ∧
        RayHits mb (m.pose.z + m.geomPose.z + d.z)
          (apply_pose (pose_sum (pose_sum m.pose m.geomPose) d) e.1)
          (apply_pose (pose_sum (pose_sum m.pose m.geomPose) d) e.2)) ∧
    raytrace_first (collision_match (fun _ => true) 0)
      ⟨-(1 / 2), -(1 / 2)⟩ ⟨1 / 2, -(1 / 2)⟩ 0 [m1blk, m2blk] = some m1blk ∧
    m1blk.model = 1 ∧
    TestCollision (fun _ => true) [mappedA, m1blk, m2blk] (modelA 0) zeroPose
      = some 2 := by
  refine ⟨?_, TestCollision_self_entries obsR idx extra m d hex, ?_,
    rt_e0, rfl, tcC2⟩
  · intro hb
    unfold TestCollision
    rw [if_pos hb]
  · intro htc
    by_cases hb : m.blocks = []
    · exfalso
      unfold TestCollision at htc
      rw [if_pos hb] at htc
      cases htc
    · rw [TestCollision_eq obsR idx m d hb] at htc
      rcases tc_fold_some
          (fun e => raytrace_first (collision_match obsR m.id)
            (apply_pose (pose_sum (pose_sum m.pose m.geomPose) d) e.1)
            (apply_pose (pose_sum (pose_sum m.pose m.geomPose) d) e.2)
            (m.pose.z + m.geomPose.z + d.z)
            (unmap_model idx m.id))
          hm (TCEdges m) none htc with ⟨e, he, mb, hrt, hmod⟩ | hacc
      · obtain ⟨hmem, hpred, hhits⟩ := raytrace_first_some hrt
        refine ⟨?_, ?_, e, he, mb, hrt, hmod, hmem, hpred, hhits⟩
        · rw [← hmod]
          exact hpred.1
        · rw [← hmod]
          exact hpred.2
      · cases hacc

/-- C2 witness: appending a mover-owned entry to the index leaves
TestCollision unchanged, at the concrete scenario state. -/
theorem c2_amended_witness :
    TestCollision (fun _ => true) ([mappedA, m1blk, m2blk] ++ [mappedA])
        (modelA 0) zeroPose =
      TestCollision (fun _ => true) [mappedA, m1blk, m2blk] (modelA 0)
        zeroPose :=
  (c2_amended (fun _ => true) [mappedA, m1blk, m2blk] [mappedA] (modelA 0)
    zeroPose 0 (by simp [mappedA, modelA])).2.1

/-- C2, counterexample: the first accepting hit over the edges belongs to
model 1, yet the reported collision is model 2 — the last hit overwrites
hitmod, so the first accepting hit is not the reported collision. -/
theorem c2_counterexample :
    TestCollision (fun _ => true) [mappedA, m1blk, m2blk] (modelA 0) zeroPose
        = some 2 ∧
    raytrace_first (collision_match (fun _ => true) 0)
      ⟨-(1 / 2), -(1 / 2)⟩ ⟨1 / 2, -(1 / 2)⟩ 0 [m1blk, m2blk] = some m1blk ∧
    m1blk.model = 1 ∧
    ¬ (2 : ℕ) = 1 :=
  ⟨tcC2, rt_e0, rfl, by norm_num⟩
